import Mathlib

/-!
Verification development for the mongoose-history-plugin core (`index.ts`).

Documents are modelled as flat association lists from field names to string
values (JS plain objects after `JSON.parse(JSON.stringify(...))`); lookup is
first-match, mirroring JS property access.  The external `jsondiffpatch`
dependency (consumed, not built, by this repository) is modelled as a flat
structural diff/patch engine satisfying its documented contract: `diff`
returns `undefined` when the two objects agree, otherwise a delta recording
added / changed / deleted fields, and `patch` applies such a delta.
The plugin's `preSave` pipeline, version allocation, query helpers and the
replay methods (`getVersions`, `getVersion`, `compareVersions`) are then
translated function by function from the source.
-/

/-- First-match lookup in an association list, mirroring JS object access. -/
def assocGet {α : Type} : List (String × α) → String → Option α
  | [], _ => none
  | p :: rest, k => if p.1 = k then some p.2 else assocGet rest k

/-- A plain JS document: field names mapped to string values. -/
abbrev Doc := List (String × String)

/-- Remove every binding of a key (models `delete obj[k]`). -/
def docErase : Doc → String → Doc
  | [], _ => []
  | p :: rest, k => if p.1 = k then docErase rest k else p :: docErase rest k

/-- Set a key to a value (models `obj[k] = v`; extensional over `assocGet`). -/
def docSet (d : Doc) (k v : String) : Doc := (k, v) :: docErase d k

/-- One field-level delta entry, as produced by the flat diff engine:
`[v]` add, `[o, v]` change, `[o, 0, 0]` delete in jsondiffpatch notation. -/
inductive DiffOp
  | add (v : String)
  | change (old v : String)
  | del (old : String)
deriving DecidableEq, Repr

/-- A structural delta: per-key operations. -/
abbrev Diff := List (String × DiffOp)

/-- The value a delta entry leaves at its key after patching. -/
def opTarget : DiffOp → Option String
  | .add v => some v
  | .change _ v => some v
  | .del _ => none

/-- Apply one delta entry to a document. -/
def applyOp (d : Doc) (k : String) : DiffOp → Doc
  | .add v => docSet d k v
  | .change _ v => docSet d k v
  | .del _ => docErase d k

/-- Apply a structural delta (jsondiffpatch `patch`). -/
def applyDiff (d : Doc) (df : Diff) : Doc :=
  df.foldl (fun acc p => applyOp acc p.1 p.2) d

/-- Keys considered by the diff engine: keys of either document. -/
def diffKeys (prev cur : Doc) : List String :=
  (cur.map Prod.fst ++ prev.map Prod.fst).dedup

/-- The delta entry at one key. -/
def diffAt (prev cur : Doc) (k : String) : Option DiffOp :=
  match assocGet prev k, assocGet cur k with
  | none, none => none
  | none, some v => some (.add v)
  | some o, none => some (.del o)
  | some o, some v => if o = v then none else some (.change o v)

/-- All delta entries between two documents. -/
def diffEntries (prev cur : Doc) : Diff :=
  (diffKeys prev cur).filterMap (fun k => (diffAt prev cur k).map ((k, ·)))

/-- jsondiffpatch `diff`: `undefined` (none) when the documents agree,
otherwise the delta. -/
def jdfDiff (prev cur : Doc) : Option Diff :=
  if diffEntries prev cur = [] then none else some (diffEntries prev cur)

/-- jsondiffpatch `patch` on a possibly-undefined delta. -/
def patchOpt (d : Doc) : Option Diff → Doc
  | none => d
  | some df => applyDiff d df

/-- Extensional document equality: field-for-field agreement. -/
def DocEquiv (a b : Doc) : Prop := ∀ k, assocGet a k = assocGet b k

/-- A semantic version, the `major.minor.patch` triple handled by `semver`. -/
structure SemVer where
  major : Nat
  minor : Nat
  patch : Nat
deriving DecidableEq, Repr

/-- A bump class, the `type` field of the pending metadata. -/
inductive Bump
  | major
  | minor
  | patch
deriving DecidableEq, Repr

/-- `semver.inc`: increment the requested component, zeroing lower ones. -/
def semverInc (v : SemVer) : Bump → SemVer
  | .major => ⟨v.major + 1, 0, 0⟩
  | .minor => ⟨v.major, v.minor + 1, 0⟩
  | .patch => ⟨v.major, v.minor, v.patch + 1⟩

/-- `semver.lt`: semantic-version precedence (numeric, component-wise). -/
def semverLt (a b : SemVer) : Bool :=
  decide (a.major < b.major ∨ (a.major = b.major ∧
    (a.minor < b.minor ∨ (a.minor = b.minor ∧ a.patch < b.patch))))

theorem semverLt_irrefl (v : SemVer) : semverLt v v = false := by
  simp [semverLt]

theorem semverLt_trans {a b c : SemVer} (h₁ : semverLt a b = true)
    (h₂ : semverLt b c = true) : semverLt a c = true := by
  simp only [semverLt, decide_eq_true_eq] at h₁ h₂ ⊢
  rcases h₁ with h₁ | ⟨e₁, h₁⟩ <;> rcases h₂ with h₂ | ⟨e₂, h₂⟩
  · exact Or.inl (h₁.trans h₂)
  · exact Or.inl (e₂ ▸ h₁)
  · exact Or.inl (e₁ ▸ h₂)
  · right
    refine ⟨e₁.trans e₂, ?_⟩
    rcases h₁ with h₁ | ⟨f₁, h₁⟩ <;> rcases h₂ with h₂ | ⟨f₂, h₂⟩
    · exact Or.inl (h₁.trans h₂)
    · exact Or.inl (f₂ ▸ h₁)
    · exact Or.inl (f₁ ▸ h₂)
    · exact Or.inr ⟨f₁.trans f₂, h₁.trans h₂⟩

/-- The plugin configuration fields relevant to the core logic.  The
configurable field names (`userFieldName`, `accountFieldName`,
`timestampFieldName`, `methodFieldName`) are fixed to their defaults
`user` / `account` / `timestamp` / `method` in this model. -/
structure Options where
  noEventSave : Bool
  noDiffSave : Bool
  noDiffSaveOnMethods : List String
  ignore : List String
  embeddedDocument : Bool
deriving Repr

/-- Pending history metadata (`this.__history`). -/
structure Meta where
  event : Option String
  type : Option Bump
  reason : Option String
  data : Option String
  user : Option String
  account : Option String
  method : Option String
deriving Repr

/-- Strip the transient fields: `__history`, `__v`, and every configured
ignore field (preSave lines 220-228). -/
def normalizeDoc (opts : Options) (d : Doc) : Doc :=
  d.filter (fun p =>
    p.1 ≠ "__history" && p.1 ≠ "__v" && !(opts.ignore.contains p.1))

/-- JS `a || b` on optional strings: an empty string is falsy. -/
def jsOr (a b : Option String) : Option String :=
  match a with
  | some s => if s = "" then b else some s
  | none => b

/-- The `saveWithoutDiff` flag (preSave lines 232-241, without the forced
snapshot override): metadata present, a non-empty `noDiffSaveOnMethods`
list, and a truthy method tag contained in it. -/
def saveWithoutDiffFlag (opts : Options) (meta : Option Meta) : Bool :=
  match meta with
  | some m =>
    !opts.noDiffSaveOnMethods.isEmpty &&
      (match m.method with
       | some s => !(s = "") && opts.noDiffSaveOnMethods.contains s
       | none => false)
  | none => false

/-- Gate at preSave line 199: `this.__history !== undefined || noEventSave`. -/
def gateB (opts : Options) (meta : Option Meta) : Bool :=
  meta.isSome || opts.noEventSave

/-- The bump class used at commit (preSave lines 276-279): the metadata's
`type` when present and truthy, otherwise `major`. -/
def metaBump (meta : Option Meta) : Bump :=
  (meta.bind Meta.type).getD .major

/-- Version allocation (preSave lines 273-284): `0.0.0` when no prior
record exists, otherwise `semver.inc` of the prior version. -/
def nextVersion (lastVersion : Option SemVer) (b : Bump) : SemVer :=
  match lastVersion with
  | some lv => semverInc lv b
  | none => ⟨0, 0, 0⟩

/-- The payload stored in the record's `diff` field (preSave lines 230-241
and 255): the full normalized previous state when `saveWithoutDiff` is set
on a forced (deletion) commit, otherwise the structural diff, or `{}` when
the diff engine returned `undefined`. -/
inductive DiffPayload
  | structural (d : Diff)
  | emptyDelta
  | snapshot (d : Doc)
deriving DecidableEq, Repr

/-- A value stored in a history record field. -/
inductive FieldVal
  | str (s : String)
  | oid (n : Nat)
  | num (n : Nat)
  | ver (v : SemVer)
  | diffVal (p : DiffPayload)
deriving DecidableEq, Repr

/-- A persisted history record: a plain document over `FieldVal`s. -/
abbrev HistoryDoc := List (String × FieldVal)

/-- Drop every key whose value is `undefined` (the `for key in obj` loop at
preSave lines 285-289). -/
def omitUndefined (l : List (String × Option FieldVal)) : HistoryDoc :=
  l.filterMap (fun p => p.2.map (fun v => (p.1, v)))

/-- The record object as assembled at preSave lines 252-284, before the
undefined-field deletion loop: `collectionName`, `collectionId` and `diff`
always; the metadata-derived fields only when metadata is present (the
account value prefers the document's own `account` field, line 263-265);
`version` always. -/
def buildBase (cname : String) (cid : Nat) (payload : DiffPayload)
    (meta : Option Meta) (docAccount : Option String) (version : SemVer) :
    List (String × Option FieldVal) :=
  [("collectionName", some (.str cname)),
   ("collectionId", some (.oid cid)),
   ("diff", some (.diffVal payload))] ++
  (match meta with
   | some m =>
     [("event", m.event.map .str),
      ("user", m.user.map .str),
      ("account", (jsOr docAccount m.account).map .str),
      ("reason", m.reason.map .str),
      ("data", m.data.map .str),
      ("method", m.method.map .str)]
   | none => []) ++
  [("version", some (.ver version))]

/-- The record finally handed to `new HistoryModel(obj)`. -/
def buildObj (cname : String) (cid : Nat) (payload : DiffPayload)
    (meta : Option Meta) (docAccount : Option String) (version : SemVer) :
    HistoryDoc :=
  omitUndefined (buildBase cname cid payload meta docAccount version)

/-- Outcome of the previous-state lookup: `findById` for top-level
documents (found document / null / rejected promise), or the
`getVersions()`-replay for embedded documents (latest snapshot / no
versions / thrown error). -/
inductive LookupOutcome
  | found (d : Doc)
  | missing
  | threw (e : String)

/-- Resolution of the previous state (preSave lines 200-218): the embedded
branch catches a throw and yields `{}`; the top-level branch has no local
catch, so a rejection propagates to the final `.catch(next)`; a null
result is replaced by `{}` in both cases. -/
def resolvePrevious (opts : Options) : LookupOutcome → Except String Doc
  | .found d => .ok d
  | .missing => .ok []
  | .threw e => if opts.embeddedDocument then .ok [] else .error e

/-- The payload selection at preSave lines 230-241 and 255. -/
def mkPayload (force swd : Bool) (sdiff : Option Diff) (previousObject : Doc) :
    DiffPayload :=
  if swd && force then .snapshot previousObject
  else
    match sdiff with
    | some d => .structural d
    | none => .emptyDelta

/-- The preSave hook pipeline (lines 197-306) for one mutation, as a pure
function of the document state and the prior-version lookup: `.error e`
models `next(err)` (the mutation is aborted), `.ok none` models a skipped
commit (`next()` with no record), `.ok (some r)` models an appended
history record. -/
def preSaveCore (opts : Options) (force : Bool) (meta : Option Meta)
    (cur : Doc) (lookup : LookupOutcome) (lastVersion : Option SemVer)
    (cname : String) (cid : Nat) : Except String (Option HistoryDoc) :=
  if gateB opts meta then
    match resolvePrevious opts lookup with
    | .error e => .error e
    | .ok prev =>
      let previousObject := normalizeDoc opts prev
      let currentObject := normalizeDoc opts cur
      let sdiff := jdfDiff previousObject currentObject
      let swd := saveWithoutDiffFlag opts meta
      if sdiff.isSome || opts.noDiffSave || swd then
        .ok (some (buildObj cname cid (mkPayload force swd sdiff previousObject)
          meta (assocGet cur "account") (nextVersion lastVersion (metaBump meta))))
      else
        .ok none
  else
    .ok none

/-- Record accessor: the stored `version` field, defaulting to `0.0.0`
(the schema default at line 109). -/
def recVersion (r : HistoryDoc) : SemVer :=
  match assocGet r "version" with
  | some (.ver v) => v
  | _ => ⟨0, 0, 0⟩

/-- Record accessor: the stored `diff` payload. -/
def recDiffPayload (r : HistoryDoc) : DiffPayload :=
  match assocGet r "diff" with
  | some (.diffVal p) => p
  | _ => .emptyDelta

/-- Remove a record field (`delete result.diff`). -/
def recErase (r : HistoryDoc) (k : String) : HistoryDoc :=
  r.filter (fun p => decide (p.1 ≠ k))

/-- The history records of one entity in ascending timestamp order: the
`find({collectionName, collectionId})` scoping of `getDiffs`, over a store
kept in insertion order (timestamps are assigned at write time and
strictly increase in this model). -/
def matchingRecords (store : List HistoryDoc) (cname : String) (cid : Nat) :
    List HistoryDoc :=
  store.filter (fun r =>
    decide (assocGet r "collectionName" = some (.str cname)) &&
      decide (assocGet r "collectionId" = some (.oid cid)))

/-- The `findOne` + `sort('-timestamp')` lookup of the most recent prior
record's version (preSave lines 245-251). -/
def lastVersionOf (store : List HistoryDoc) (cname : String) (cid : Nat) :
    Option SemVer :=
  (matchingRecords store cname cid).getLast?.map recVersion

/-- One save (or deleteOne) of a tracked entity as driven by the hooks. -/
structure SaveInput where
  meta : Option Meta
  cur : Doc
  force : Bool
deriving Repr

/-- The evolving world: the entity's persisted document (what `findById`
returns), the shared history store in insertion order, and the timestamp /
ObjectId counter. -/
structure RunState where
  entity : Option Doc
  store : List HistoryDoc
  tick : Nat
deriving Repr

def initState : RunState := ⟨none, [], 0⟩

/-- One `save()` of the entity: the preSave hook runs with the previous
state looked up from the main collection, a produced record is inserted
into the history store (Mongo assigns `_id`; the history schema's pre-save
hook assigns `timestamp`), and the mutation itself persists `cur`. -/
def stepSave (opts : Options) (cname : String) (cid : Nat) (st : RunState)
    (inp : SaveInput) : RunState :=
  match preSaveCore opts inp.force inp.meta inp.cur
      (match st.entity with
       | some d => .found d
       | none => .missing)
      (lastVersionOf st.store cname cid) cname cid with
  | .ok (some r) =>
    { entity := some inp.cur,
      store := st.store ++
        [("_id", FieldVal.oid st.tick) :: ("timestamp", FieldVal.num st.tick) :: r],
      tick := st.tick + 1 }
  | _ => { entity := some inp.cur, store := st.store, tick := st.tick + 1 }

/-- Run a sequence of saves, also collecting the ghost list of normalized
entity states at the moments a history record was written (the
materialized state recorded at each version). -/
def runSaves (opts : Options) (cname : String) (cid : Nat) :
    RunState → List Doc → List SaveInput → RunState × List Doc
  | st, ghosts, [] => (st, ghosts)
  | st, ghosts, inp :: rest =>
    runSaves opts cname cid (stepSave opts cname cid st inp)
      (if (stepSave opts cname cid st inp).store.length = st.store.length then
        ghosts
       else ghosts ++ [normalizeDoc opts inp.cur]) rest

/-- Patch with a stored payload.  A `structural` delta patches normally; an
empty `{}` delta changes nothing; a full-snapshot payload (written only by
the forced no-diff commit) is not a valid delta for the diff engine, whose
`patch` throws on it — except that an empty snapshot is again `{}`. -/
def patchPayload (d : Doc) : DiffPayload → Option Doc
  | .structural df => some (applyDiff d df)
  | .emptyDelta => some d
  | .snapshot s => if s.isEmpty then some d else none

/-- A replayed version: the record with its `diff` field removed and the
materialized `object` attached. -/
structure VersionResult where
  fields : HistoryDoc
  object : Doc
deriving DecidableEq, Repr

/-- The replay-all fold of `getVersions` (lines 400-408): starting from the
empty object, apply each record's diff in ascending timestamp order,
attaching the materialized snapshot to each record. -/
def replayAll (histories : List HistoryDoc) :
    Option (Doc × List VersionResult) :=
  histories.foldl
    (fun acc item =>
      acc.bind (fun p =>
        (patchPayload p.1 (recDiffPayload item)).map (fun cv =>
          (cv, p.2 ++ [⟨recErase item "diff", cv⟩]))))
    (some ([], []))

/-- `getVersions()` (lines 392-412) with default options: ascending
timestamp order, `includeObject = true`.  `none` models a rejected
promise (a patch failure). -/
def getVersionsM (store : List HistoryDoc) (cname : String) (cid : Nat) :
    Option (List VersionResult) :=
  (replayAll (matchingRecords store cname cid)).map Prod.snd

/-- The clamping of lines 345-351: pull the target below the latest
recorded version, then above the earliest. -/
def clampTarget (histories : List HistoryDoc) (v : SemVer) : SemVer :=
  let firstV := recVersion (histories.head?.getD [])
  let lastV := recVersion (histories.getLast?.getD [])
  let v1 := if semverLt lastV v then lastV else v
  if semverLt v1 firstV then firstV else v1

/-- The `histories.forEach` search of lines 353-357: the last record whose
version equals the target. -/
def findTarget (histories : List HistoryDoc) (v : SemVer) : Option HistoryDoc :=
  histories.foldl (fun acc item => if recVersion item = v then some item else acc)
    none

/-- The replay fold of lines 363-370: apply every diff at a version at or
below the target, in ascending timestamp order. -/
def replayUpTo (histories : List HistoryDoc) (v : SemVer) : Option Doc :=
  histories.foldl
    (fun acc item =>
      acc.bind (fun cv =>
        if semverLt (recVersion item) v || recVersion item = v then
          patchPayload cv (recDiffPayload item)
        else some cv))
    (some [])

/-- `getVersion(version2get)` (lines 338-378) with the default
`includeObject = true`.  With zero records the first `semver` comparison
reads `lastVersion.version` of `undefined` and the promise rejects (the
"no history" failure); a patch failure rejects during the fold; a missing
target version rejects at `delete result.diff`. -/
def getVersionM (store : List HistoryDoc) (cname : String) (cid : Nat)
    (v : SemVer) : Except String VersionResult :=
  let histories := matchingRecords store cname cid
  if histories.isEmpty then .error "no history"
  else
    let target := clampTarget histories v
    match replayUpTo histories target with
    | none => .error "invalid diff"
    | some obj =>
      match findTarget histories target with
      | none => .error "version not found"
      | some h => .ok ⟨recErase h "diff", obj⟩

/-- The comparison result of `compareVersions` (lines 380-390). -/
structure CompareResult where
  diff : Option Diff
  left : Doc
  right : Doc
deriving DecidableEq, Repr

/-- `compareVersions(versionLeft, versionRight)` (lines 380-390): replay
both versions independently and diff the two snapshots. -/
def compareVersionsM (store : List HistoryDoc) (cname : String) (cid : Nat)
    (va vb : SemVer) : Except String CompareResult :=
  match getVersionM store cname cid va with
  | .error e => .error e
  | .ok l =>
    match getVersionM store cname cid vb with
    | .error e => .error e
    | .ok r => .ok ⟨jdfDiff l.object r.object, l.object, r.object⟩

/-- The forced merge of exclusions into a caller-supplied projection
(queryHistory lines 169-177): `Object.assign(select, {_id: 0,
collectionId: 0, collectionName: 0})` overwrites those three keys. -/
def mergeSelect (sel : List (String × Nat)) : List (String × Nat) :=
  sel.filter (fun p =>
    p.1 ≠ "_id" && p.1 ≠ "collectionId" && p.1 ≠ "collectionName") ++
  [("_id", 0), ("collectionId", 0), ("collectionName", 0)]

/-- Whether a projection has any inclusion entry. -/
def projActive (sel : List (String × Nat)) : Bool :=
  sel.any (fun p => p.2 ≠ 0)

/-- MongoDB projection, modelled from the store's documented contract
(external collaborator): a key valued 0 is excluded; a key with a nonzero
value is included; unlisted keys are kept only in a pure-exclusion
projection.  (Real MongoDB rejects mixed projections outright, which only
strengthens the absence of excluded fields.) -/
def applySelect (sel : List (String × Nat)) (r : HistoryDoc) : HistoryDoc :=
  r.filter (fun p =>
    match assocGet sel p.1 with
    | some 0 => false
    | some _ => true
    | none => !projActive sel)

/-- `getDiffs(options)` (lines 312-322 via queryHistory): entity-scoped
records, default sort `-timestamp` (most recent first), with the caller's
projection — after the forced exclusions — applied when present. -/
def getDiffsM (store : List HistoryDoc) (cname : String) (cid : Nat)
    (sel : Option (List (String × Nat))) : List HistoryDoc :=
  (matchingRecords store cname cid).reverse.map (fun r =>
    match sel with
    | some s => applySelect (mergeSelect s) r
    | none => r)

/-- `getDiff(version, options)` (lines 324-336): `findOne` on the
entity-scoped records at an exact stored version, most recent first. -/
def getDiffM (store : List HistoryDoc) (cname : String) (cid : Nat)
    (v : SemVer) (sel : Option (List (String × Nat))) : Option HistoryDoc :=
  (((matchingRecords store cname cid).filter (fun r =>
      decide (assocGet r "version" = some (.ver v)))).reverse.head?).map
    (fun r =>
      match sel with
      | some s => applySelect (mergeSelect s) r
      | none => r)

/-! Concrete scenarios used by witnesses and counterexamples. -/

/-- The default configuration of the repository's test suite. -/
def optsStd : Options := ⟨true, false, ["delete"], [], false⟩

/-- A configuration with `noEventSave` off: only mutations carrying pending
metadata are recorded. -/
def optsNoEvent : Options := ⟨false, false, [], [], false⟩

/-- Empty pending metadata (`document.__history = {}`). -/
def metaEmpty : Meta := ⟨none, none, none, none, none, none, none⟩

/-- Pending metadata whose method tag is `delete`. -/
def metaDelete : Meta := ⟨none, none, none, none, none, none, some "delete"⟩

/-- Pending metadata carrying an account reference. -/
def metaAccountB : Meta := ⟨none, none, none, none, none, some "B", none⟩

/-- The test-suite tank in its two successive states. -/
def tankSmall : Doc := [("_id", "x"), ("size", "small")]

def tankLarge : Doc := [("_id", "x"), ("size", "large")]

/-- Two recorded saves of the tank (versions `0.0.0` then `1.0.0`). -/
def twoSaveRun : RunState × List Doc :=
  runSaves optsStd "tank" 1 initState []
    [⟨none, tankSmall, false⟩, ⟨none, tankLarge, false⟩]

/-- Three saves under `noEventSave = false`: the middle one carries no
metadata, so it mutates the entity without writing a record. -/
def gapSaves : List SaveInput :=
  [⟨some metaEmpty, [("a", "1"), ("b", "1")], false⟩,
   ⟨none, [("a", "1")], false⟩,
   ⟨some metaEmpty, [("a", "2")], false⟩]

def gapRun : RunState × List Doc :=
  runSaves optsNoEvent "tank" 1 initState [] gapSaves

/-- An embedded-document configuration. -/
def optsEmbedded : Options := ⟨true, false, [], [], true⟩

/-- Pending metadata with every field populated. -/
def metaFull : Meta :=
  ⟨some "e", some .minor, some "r", some "d", some "u", some "B", some "m"⟩

/-- The record written by a save of `{x: 1}` carrying `metaFull`. -/
def C8WitnessRecord : HistoryDoc :=
  [("collectionName", .str "tank"), ("collectionId", .oid 1),
   ("diff", .diffVal (.structural [("x", .add "1")])),
   ("event", .str "e"), ("user", .str "u"), ("account", .str "B"),
   ("reason", .str "r"), ("data", .str "d"), ("method", .str "m"),
   ("version", .ver ⟨0, 0, 0⟩)]

/-- The version column of an entity's records, in timestamp order. -/
def versionsOf (store : List HistoryDoc) (cname : String) (cid : Nat) :
    List SemVer :=
  (matchingRecords store cname cid).map recVersion

/-- Whether a stored payload is a valid delta for the diff engine's patch. -/
def isReplayable : DiffPayload → Bool
  | .structural _ => true
  | .emptyDelta => true
  | .snapshot s => s.isEmpty

/-- A handcrafted two-record history whose versions start above `0.0.0`. -/
def c5Store : List HistoryDoc :=
  [[("collectionName", .str "t"), ("collectionId", .oid 1),
    ("diff", .diffVal (.structural [("a", .add "1")])),
    ("version", .ver ⟨1, 0, 0⟩)],
   [("collectionName", .str "t"), ("collectionId", .oid 1),
    ("diff", .diffVal (.structural [("a", .change "1" "2")])),
    ("version", .ver ⟨2, 0, 0⟩)]]

/-- The result of comparing versions `0.0.0` and `1.0.0` of the test tank. -/
def c9Result : CompareResult :=
  ⟨some [("size", .change "small" "large")],
   [("size", "small"), ("_id", "x")],
   [("size", "large"), ("_id", "x")]⟩

/-- The newest record of the two-save tank run. -/
def C10WitnessRecord : HistoryDoc :=
  [("_id", .oid 1), ("timestamp", .num 1), ("collectionName", .str "tank"),
   ("collectionId", .oid 1),
   ("diff", .diffVal (.structural [("size", .change "small" "large")])),
   ("version", .ver ⟨1, 0, 0⟩)]

/-- The replay invariant along a run: the replay-all fold over the entity's
records succeeds, its per-record snapshots agree field-for-field with the
normalized entity states captured when each record was written, and the
final replayed document agrees with the current normalized entity state. -/
def ReplayInv (opts : Options) (cname : String) (cid : Nat) (st : RunState)
    (ghosts : List Doc) : Prop :=
  ∃ cv rs, replayAll (matchingRecords st.store cname cid) = some (cv, rs) ∧
    List.Forall₂ (fun r g => DocEquiv r.object g) rs ghosts ∧
    DocEquiv cv (normalizeDoc opts (st.entity.getD []))
theorem DocEquiv.refl (a : Doc) : DocEquiv a a := fun _ => rfl

theorem DocEquiv.symm {a b : Doc} (h : DocEquiv a b) : DocEquiv b a :=
  fun k => (h k).symm

theorem DocEquiv.trans {a b c : Doc} (h₁ : DocEquiv a b) (h₂ : DocEquiv b c) :
    DocEquiv a c := fun k => (h₁ k).trans (h₂ k)

theorem assocGet_eq_none_iff {α : Type} (l : List (String × α)) (k : String) :
    assocGet l k = none ↔ k ∉ l.map Prod.fst := by
  induction l with
  | nil => simp [assocGet]
  | cons p rest ih =>
    by_cases h : p.1 = k
    · simp [assocGet, h]
    · simp only [assocGet, h, if_false, List.map_cons, List.mem_cons, ih]
      constructor
      · intro hn hc
        rcases hc with hc | hc
        · exact h hc.symm
        · exact hn hc
      · intro hn hm
        exact hn (Or.inr hm)

theorem docGet_erase (d : Doc) (k k' : String) :
    assocGet (docErase d k) k' = if k' = k then none else assocGet d k' := by
  induction d with
  | nil => simp [docErase, assocGet]
  | cons p rest ih =>
    simp only [docErase]
    by_cases hp : p.1 = k
    · rw [if_pos hp, ih]
      by_cases hk : k' = k
      · rw [if_pos hk, if_pos hk]
      · rw [if_neg hk, if_neg hk]
        have hpk : ¬ p.1 = k' := fun h => hk (by rw [← h]; exact hp)
        simp [assocGet, hpk]
    · rw [if_neg hp]
      simp only [assocGet]
      by_cases hq : p.1 = k'
      · have hk : ¬ k' = k := fun h => hp (by rw [hq, h])
        rw [if_pos hq, if_neg hk, if_pos hq]
      · rw [if_neg hq, ih, if_neg hq]

theorem docGet_set (d : Doc) (k v : String) (k' : String) :
    assocGet (docSet d k v) k' = if k' = k then some v else assocGet d k' := by
  simp only [docSet, assocGet]
  by_cases h : k = k'
  · simp [h]
  · have : ¬ k' = k := fun hh => h hh.symm
    simp [h, this, docGet_erase]

theorem applyOp_get_self (d : Doc) (k : String) (op : DiffOp) :
    assocGet (applyOp d k op) k = opTarget op := by
  cases op <;> simp [applyOp, opTarget, docGet_set, docGet_erase]

theorem applyOp_get_other (d : Doc) (k : String) (op : DiffOp) (k' : String)
    (h : k' ≠ k) : assocGet (applyOp d k op) k' = assocGet d k' := by
  cases op <;> simp [applyOp, docGet_set, docGet_erase, h]

theorem applyDiff_get (df : Diff) (d : Doc) (k : String)
    (hnd : (df.map Prod.fst).Nodup) :
    assocGet (applyDiff d df) k =
      match assocGet df k with
      | some op => opTarget op
      | none => assocGet d k := by
  induction df generalizing d with
  | nil => simp [applyDiff, assocGet]
  | cons p rest ih =>
    simp only [List.map_cons, List.nodup_cons] at hnd
    have hstep : applyDiff d (p :: rest) = applyDiff (applyOp d p.1 p.2) rest := rfl
    rw [hstep, ih _ hnd.2]
    by_cases hk : p.1 = k
    · subst hk
      have hrest : assocGet rest p.1 = none :=
        (assocGet_eq_none_iff rest p.1).2 hnd.1
      simp [assocGet, hrest, applyOp_get_self]
    · have : assocGet (p :: rest) k = assocGet rest k := by
        simp [assocGet, hk]
      rw [this]
      cases assocGet rest k with
      | none => simp [applyOp_get_other d p.1 p.2 k (fun h => hk h.symm)]
      | some op => simp

theorem filterMap_pair_get {α : Type} (f : String → Option α) (ks : List String)
    (hnd : ks.Nodup) (k : String) :
    assocGet (ks.filterMap (fun k => (f k).map ((k, ·)))) k =
      if k ∈ ks then f k else none := by
  induction ks with
  | nil => simp [assocGet]
  | cons k1 rest ih =>
    simp only [List.nodup_cons] at hnd
    cases hf : f k1 with
    | none =>
      simp only [List.filterMap_cons, hf, Option.map_none']
      rw [ih hnd.2]
      by_cases hk : k = k1
      · subst hk
        simp [hnd.1, hf]
      · simp [hk]
    | some v =>
      simp only [List.filterMap_cons, hf, Option.map_some', assocGet]
      by_cases hk : k1 = k
      · subst hk
        simp [hf]
      · have hk' : ¬ k = k1 := fun h => hk h.symm
        simp [hk, hk', ih hnd.2]

theorem filterMap_pair_keys {α : Type} (f : String → Option α) (ks : List String) :
    (ks.filterMap (fun k => (f k).map ((k, ·)))).map Prod.fst =
      ks.filter (fun k => (f k).isSome) := by
  induction ks with
  | nil => simp
  | cons k1 rest ih =>
    simp only [List.filterMap_cons, List.filter_cons]
    cases hf : f k1 <;> simp [hf, ih]

theorem diffKeys_nodup (prev cur : Doc) : (diffKeys prev cur).Nodup := by
  rw [diffKeys]
  exact List.nodup_dedup _

theorem diffEntries_keys_nodup (prev cur : Doc) :
    ((diffEntries prev cur).map Prod.fst).Nodup := by
  rw [diffEntries, filterMap_pair_keys]
  exact (diffKeys_nodup prev cur).filter _

theorem diffEntries_get (prev cur : Doc) (k : String) :
    assocGet (diffEntries prev cur) k =
      if k ∈ diffKeys prev cur then diffAt prev cur k else none := by
  rw [diffEntries, filterMap_pair_get _ _ (diffKeys_nodup prev cur)]

theorem not_mem_diffKeys {prev cur : Doc} {k : String}
    (h : k ∉ diffKeys prev cur) :
    assocGet prev k = none ∧ assocGet cur k = none := by
  rw [diffKeys, List.mem_dedup, List.mem_append] at h
  push_neg at h
  exact ⟨(assocGet_eq_none_iff _ _).2 h.2, (assocGet_eq_none_iff _ _).2 h.1⟩

theorem diffAt_none_iff (prev cur : Doc) (k : String) :
    diffAt prev cur k = none ↔ assocGet prev k = assocGet cur k := by
  rw [diffAt]
  cases hp : assocGet prev k <;> cases hc : assocGet cur k
  · simp
  · simp
  · simp
  · rename_i o v
    by_cases hov : o = v <;> simp [hov]

/-- Round trip of the modelled diff engine: patching the previous document
with `diff previous current` reproduces `current` field for field. -/
theorem patch_diff_get (prev cur : Doc) (k : String) :
    assocGet (patchOpt prev (jdfDiff prev cur)) k = assocGet cur k := by
  rw [jdfDiff]
  by_cases hnil : diffEntries prev cur = []
  · simp only [hnil, if_pos, patchOpt]
    by_cases hk : k ∈ diffKeys prev cur
    · have : diffAt prev cur k = none := by
        have := diffEntries_get prev cur k
        rw [hnil] at this
        simp only [assocGet, hk, if_pos] at this
        exact this.symm
      exact (diffAt_none_iff prev cur k).1 this
    · have := not_mem_diffKeys hk
      rw [this.1, this.2]
  · simp only [hnil, if_neg, patchOpt, not_false_iff]
    rw [applyDiff_get _ _ _ (diffEntries_keys_nodup prev cur), diffEntries_get]
    by_cases hk : k ∈ diffKeys prev cur
    · simp only [hk, if_pos]
      cases hd : diffAt prev cur k with
      | none => exact (diffAt_none_iff prev cur k).1 hd
      | some op =>
        rw [diffAt] at hd
        cases hp : assocGet prev k <;> cases hc : assocGet cur k <;>
          rw [hp, hc] at hd
        · simp at hd
        · simp only [Option.some_inj] at hd
          rw [← hd]; rfl
        · simp only [Option.some_inj] at hd
          rw [← hd]; rfl
        · rename_i o v
          by_cases hov : o = v
          · simp [hov] at hd
          · simp only [hov, if_neg, Option.some_inj, not_false_iff] at hd
            rw [← hd]; rfl
    · simp only [hk, if_neg, not_false_iff]
      have := not_mem_diffKeys hk
      rw [this.1, this.2]

/-- When the modelled diff engine returns `undefined`, the documents agree. -/
theorem jdfDiff_none_equiv {prev cur : Doc} (h : jdfDiff prev cur = none) :
    DocEquiv prev cur := by
  intro k
  have := patch_diff_get prev cur k
  rw [h] at this
  exact this

theorem jdfDiff_roundtrip (prev cur : Doc) :
    DocEquiv (patchOpt prev (jdfDiff prev cur)) cur :=
  fun k => patch_diff_get prev cur k

theorem jdfDiff_keys_nodup {prev cur : Doc} {d : Diff}
    (h : jdfDiff prev cur = some d) : (d.map Prod.fst).Nodup := by
  rw [jdfDiff] at h
  split at h
  · exact absurd h (by simp)
  · cases h
    exact diffEntries_keys_nodup prev cur

/-- Patching respects extensional equality of the base document. -/
theorem applyDiff_congr {a b : Doc} (df : Diff)
    (hnd : (df.map Prod.fst).Nodup) (h : DocEquiv a b) :
    DocEquiv (applyDiff a df) (applyDiff b df) := by
  intro k
  rw [applyDiff_get df a k hnd, applyDiff_get df b k hnd]
  cases assocGet df k with
  | none => exact h k
  | some op => rfl


/-! Record-construction lemmas. -/

theorem assocGet_omitUndefined (l : List (String × Option FieldVal)) (k : String)
    (hnd : (l.map Prod.fst).Nodup) :
    assocGet (omitUndefined l) k = (assocGet l k).bind id := by
  induction l with
  | nil => simp [omitUndefined, assocGet]
  | cons p rest ih =>
    simp only [List.map_cons, List.nodup_cons] at hnd
    cases hv : p.2 with
    | none =>
      simp only [omitUndefined, List.filterMap_cons, hv, Option.map_none']
      rw [show List.filterMap (fun p => p.2.map (fun v => (p.1, v))) rest =
            omitUndefined rest from rfl, ih hnd.2]
      by_cases hk : p.1 = k
      · subst hk
        have hr : assocGet rest p.1 = none := (assocGet_eq_none_iff _ _).2 hnd.1
        simp [assocGet, hr, hv]
      · simp [assocGet, hk]
    | some v =>
      simp only [omitUndefined, List.filterMap_cons, hv, Option.map_some']
      by_cases hk : p.1 = k
      · simp [assocGet, hk, hv]
      · simp only [assocGet, hk, if_false]
        exact ih hnd.2

theorem buildBase_keys_nodup (cname : String) (cid : Nat) (payload : DiffPayload)
    (meta : Option Meta) (docAccount : Option String) (version : SemVer) :
    ((buildBase cname cid payload meta docAccount version).map Prod.fst).Nodup := by
  cases meta <;> simp [buildBase]

theorem buildObj_get_collectionName (cname : String) (cid : Nat)
    (payload : DiffPayload) (meta : Option Meta) (docAccount : Option String)
    (version : SemVer) :
    assocGet (buildObj cname cid payload meta docAccount version)
      "collectionName" = some (.str cname) := by
  rw [buildObj, assocGet_omitUndefined _ _
    (buildBase_keys_nodup cname cid payload meta docAccount version)]
  cases meta <;> rfl

theorem buildObj_get_collectionId (cname : String) (cid : Nat)
    (payload : DiffPayload) (meta : Option Meta) (docAccount : Option String)
    (version : SemVer) :
    assocGet (buildObj cname cid payload meta docAccount version)
      "collectionId" = some (.oid cid) := by
  rw [buildObj, assocGet_omitUndefined _ _
    (buildBase_keys_nodup cname cid payload meta docAccount version)]
  cases meta <;> rfl

theorem buildObj_get_diff (cname : String) (cid : Nat) (payload : DiffPayload)
    (meta : Option Meta) (docAccount : Option String) (version : SemVer) :
    assocGet (buildObj cname cid payload meta docAccount version) "diff" =
      some (.diffVal payload) := by
  rw [buildObj, assocGet_omitUndefined _ _
    (buildBase_keys_nodup cname cid payload meta docAccount version)]
  cases meta <;> rfl

theorem buildObj_get_version (cname : String) (cid : Nat) (payload : DiffPayload)
    (meta : Option Meta) (docAccount : Option String) (version : SemVer) :
    assocGet (buildObj cname cid payload meta docAccount version) "version" =
      some (.ver version) := by
  rw [buildObj, assocGet_omitUndefined _ _
    (buildBase_keys_nodup cname cid payload meta docAccount version)]
  cases meta with
  | none => rfl
  | some m =>
    show (assocGet [("event", m.event.map FieldVal.str),
      ("user", m.user.map FieldVal.str),
      ("account", (jsOr docAccount m.account).map FieldVal.str),
      ("reason", m.reason.map FieldVal.str),
      ("data", m.data.map FieldVal.str),
      ("method", m.method.map FieldVal.str),
      ("version", some (.ver version))] "version").bind id = some (.ver version)
    rfl

theorem buildObj_get_event (cname : String) (cid : Nat) (payload : DiffPayload)
    (m : Meta) (docAccount : Option String) (version : SemVer) :
    assocGet (buildObj cname cid payload (some m) docAccount version) "event" =
      m.event.map .str := by
  rw [buildObj, assocGet_omitUndefined _ _
    (buildBase_keys_nodup cname cid payload (some m) docAccount version)]
  rfl

theorem buildObj_get_user (cname : String) (cid : Nat) (payload : DiffPayload)
    (m : Meta) (docAccount : Option String) (version : SemVer) :
    assocGet (buildObj cname cid payload (some m) docAccount version) "user" =
      m.user.map .str := by
  rw [buildObj, assocGet_omitUndefined _ _
    (buildBase_keys_nodup cname cid payload (some m) docAccount version)]
  rfl

theorem buildObj_get_account (cname : String) (cid : Nat) (payload : DiffPayload)
    (m : Meta) (docAccount : Option String) (version : SemVer) :
    assocGet (buildObj cname cid payload (some m) docAccount version) "account" =
      (jsOr docAccount m.account).map .str := by
  rw [buildObj, assocGet_omitUndefined _ _
    (buildBase_keys_nodup cname cid payload (some m) docAccount version)]
  rfl

theorem buildObj_get_reason (cname : String) (cid : Nat) (payload : DiffPayload)
    (m : Meta) (docAccount : Option String) (version : SemVer) :
    assocGet (buildObj cname cid payload (some m) docAccount version) "reason" =
      m.reason.map .str := by
  rw [buildObj, assocGet_omitUndefined _ _
    (buildBase_keys_nodup cname cid payload (some m) docAccount version)]
  rfl

theorem buildObj_get_data (cname : String) (cid : Nat) (payload : DiffPayload)
    (m : Meta) (docAccount : Option String) (version : SemVer) :
    assocGet (buildObj cname cid payload (some m) docAccount version) "data" =
      m.data.map .str := by
  rw [buildObj, assocGet_omitUndefined _ _
    (buildBase_keys_nodup cname cid payload (some m) docAccount version)]
  rfl

theorem buildObj_get_method (cname : String) (cid : Nat) (payload : DiffPayload)
    (m : Meta) (docAccount : Option String) (version : SemVer) :
    assocGet (buildObj cname cid payload (some m) docAccount version) "method" =
      m.method.map .str := by
  rw [buildObj, assocGet_omitUndefined _ _
    (buildBase_keys_nodup cname cid payload (some m) docAccount version)]
  rfl

/-- The full behaviour of the preSave pipeline when the previous-state
lookup resolves (does not reject): the record is appended exactly when the
metadata gate passes and the commit condition holds. -/
theorem preSaveCore_char (opts : Options) (force : Bool) (meta : Option Meta)
    (cur : Doc) (lk : LookupOutcome) (lastV : Option SemVer) (cname : String)
    (cid : Nat) (prev : Doc) (hprev : resolvePrevious opts lk = .ok prev) :
    preSaveCore opts force meta cur lk lastV cname cid =
      .ok (if gateB opts meta &&
            ((jdfDiff (normalizeDoc opts prev) (normalizeDoc opts cur)).isSome ||
              opts.noDiffSave || saveWithoutDiffFlag opts meta)
          then some (buildObj cname cid
              (mkPayload force (saveWithoutDiffFlag opts meta)
                (jdfDiff (normalizeDoc opts prev) (normalizeDoc opts cur))
                (normalizeDoc opts prev))
              meta (assocGet cur "account") (nextVersion lastV (metaBump meta)))
          else none) := by
  rw [preSaveCore, hprev]
  cases hg : gateB opts meta with
  | false => simp [hg]
  | true =>
    simp only [hg, if_true, Bool.true_and]
    cases hc : ((jdfDiff (normalizeDoc opts prev) (normalizeDoc opts cur)).isSome ||
        opts.noDiffSave || saveWithoutDiffFlag opts meta) with
    | false => simp [hc]
    | true => simp [hc]

/-! Claim C3: the commit decision. -/

/-- C3: for every save of a tracked entity whose previous-state lookup
resolves, a history record is appended if and only if (pending metadata is
present OR the `noEventSave` always-record flag is set) AND (the computed
diff is non-empty OR `noDiffSave` is configured OR `saveWithoutDiff` was
set by the no-diff-methods rule); in every other case the mutation
proceeds with no record written (`.ok none`). -/
theorem C3_commit_decision (opts : Options) (force : Bool) (meta : Option Meta)
    (cur : Doc) (lk : LookupOutcome) (lastV : Option SemVer) (cname : String)
    (cid : Nat) (prev : Doc) (hprev : resolvePrevious opts lk = .ok prev) :
    ((∃ r, preSaveCore opts force meta cur lk lastV cname cid = .ok (some r)) ↔
      ((meta.isSome = true ∨ opts.noEventSave = true) ∧
        ((jdfDiff (normalizeDoc opts prev) (normalizeDoc opts cur)).isSome = true ∨
          opts.noDiffSave = true ∨ saveWithoutDiffFlag opts meta = true))) ∧
    (¬ ((meta.isSome = true ∨ opts.noEventSave = true) ∧
        ((jdfDiff (normalizeDoc opts prev) (normalizeDoc opts cur)).isSome = true ∨
          opts.noDiffSave = true ∨ saveWithoutDiffFlag opts meta = true)) →
      preSaveCore opts force meta cur lk lastV cname cid = .ok none) := by
  have hchar := preSaveCore_char opts force meta cur lk lastV cname cid prev hprev
  have hbool : (gateB opts meta &&
      ((jdfDiff (normalizeDoc opts prev) (normalizeDoc opts cur)).isSome ||
        opts.noDiffSave || saveWithoutDiffFlag opts meta)) = true ↔
      ((meta.isSome = true ∨ opts.noEventSave = true) ∧
        ((jdfDiff (normalizeDoc opts prev) (normalizeDoc opts cur)).isSome = true ∨
          opts.noDiffSave = true ∨ saveWithoutDiffFlag opts meta = true)) := by
    simp [gateB, Bool.and_eq_true, Bool.or_eq_true, or_assoc]
  cases hb : (gateB opts meta &&
      ((jdfDiff (normalizeDoc opts prev) (normalizeDoc opts cur)).isSome ||
        opts.noDiffSave || saveWithoutDiffFlag opts meta)) with
  | true =>
    rw [hb] at hchar
    simp only [if_true] at hchar
    refine ⟨⟨fun _ => hbool.1 hb, fun _ => ⟨_, hchar⟩⟩, fun hcon => absurd (hbool.1 hb) hcon⟩
  | false =>
    rw [hb] at hchar
    simp only [Bool.false_eq_true, if_false] at hchar
    refine ⟨⟨?_, ?_⟩, fun _ => hchar⟩
    · rintro ⟨r, hr⟩
      rw [hchar] at hr
      exact absurd hr (by simp)
    · intro hcond
      have := hbool.2 hcond
      rw [hb] at this
      exact absurd this (by simp)

/-- Witness for C3 at a concrete input: the first save of the test tank
under the default configuration writes a record. -/
theorem C3_commit_decision_witness :
    ∃ r, preSaveCore optsStd false none tankSmall .missing none "tank" 1 =
      .ok (some r) :=
  ((C3_commit_decision optsStd false none tankSmall .missing none "tank" 1 []
      rfl).1).2 ⟨Or.inr rfl, Or.inl (by decide)⟩

/-! Claim C6: previous-state lookup failure. -/

/-- C6 counterexample: the claim says a throwing previous-state lookup is
never fatal, for top-level entities too; but for a top-level entity a
rejected `findById` bypasses the local recovery (which only the embedded
branch has) and lands in the final `.catch(next)`, aborting the mutation. -/
theorem C6_counterexample :
    preSaveCore optsStd false none tankSmall (.threw "lookup failed") none
      "tank" 1 = .error "lookup failed" := rfl

/-- C6 amended: for embedded entities a replay failure is caught and
treated as "no previous state" (the lookup behaves as a miss); for
top-level entities a rejected `findById` is fatal to the mutation whenever
the metadata gate lets the pipeline run. -/
theorem C6_lookup_failure (opts : Options) (force : Bool) (meta : Option Meta)
    (cur : Doc) (lastV : Option SemVer) (cname : String) (cid : Nat)
    (e : String) :
    (opts.embeddedDocument = true →
      preSaveCore opts force meta cur (.threw e) lastV cname cid =
        preSaveCore opts force meta cur .missing lastV cname cid) ∧
    (opts.embeddedDocument = false → gateB opts meta = true →
      preSaveCore opts force meta cur (.threw e) lastV cname cid = .error e) := by
  constructor
  · intro he
    have h1 : resolvePrevious opts (.threw e) = .ok [] := by
      simp [resolvePrevious, he]
    have h2 : resolvePrevious opts .missing = (.ok [] : Except String Doc) := rfl
    rw [preSaveCore, preSaveCore, h1, h2]
  · intro he hg
    have h1 : resolvePrevious opts (.threw e) = .error e := by
      simp [resolvePrevious, he]
    rw [preSaveCore, h1, hg]
    simp

/-- Witness for C6 amended at concrete inputs: the embedded branch
recovers, the top-level branch aborts. -/
theorem C6_lookup_failure_witness :
    (preSaveCore optsEmbedded false none tankSmall (.threw "boom") none
        "t" 1 =
      preSaveCore optsEmbedded false none tankSmall .missing none "t" 1) ∧
    preSaveCore optsStd false none tankSmall (.threw "boom") none "t" 1 =
      .error "boom" :=
  ⟨(C6_lookup_failure optsEmbedded false none tankSmall none "t" 1 "boom").1 rfl,
   (C6_lookup_failure optsStd false none tankSmall none "t" 1 "boom").2 rfl rfl⟩

/-! Claim C7: forced no-diff commits snapshot the previous state. -/

/-- C7: when the pending metadata's method tag is (truthily) present and
contained in the configured no-diff-methods list and the commit is forced
(the before-delete hook), a record is written whose `diff` field is the
entire normalized previous state, not a structural diff. -/
theorem C7_forced_nodiff_snapshot (opts : Options) (m : Meta) (cur : Doc)
    (lk : LookupOutcome) (lastV : Option SemVer) (cname : String) (cid : Nat)
    (prev : Doc) (s : String)
    (hprev : resolvePrevious opts lk = .ok prev)
    (hm : m.method = some s) (hs : ¬ s = "")
    (hmem : s ∈ opts.noDiffSaveOnMethods) :
    ∃ r, preSaveCore opts true (some m) cur lk lastV cname cid = .ok (some r) ∧
      recDiffPayload r = .snapshot (normalizeDoc opts prev) := by
  have hswd : saveWithoutDiffFlag opts (some m) = true := by
    rw [saveWithoutDiffFlag, hm]
    have hne : opts.noDiffSaveOnMethods.isEmpty = false := by
      cases hl : opts.noDiffSaveOnMethods with
      | nil => rw [hl] at hmem; cases hmem
      | cons a l => rfl
    have hcont : opts.noDiffSaveOnMethods.contains s = true := by
      simpa using hmem
    simp [hne, hcont, hs, hmem]
  have hg : gateB opts (some m) = true := rfl
  rw [preSaveCore_char opts true (some m) cur lk lastV cname cid prev hprev,
    hswd, hg]
  simp only [Bool.or_true, Bool.and_true, if_true]
  refine ⟨_, rfl, ?_⟩
  simp [recDiffPayload, buildObj_get_diff, mkPayload]

/-- Witness for C7 at a concrete input: a forced delete-tagged commit under
the test-suite configuration stores the previous state as the diff. -/
theorem C7_forced_nodiff_snapshot_witness :
    ∃ r, preSaveCore optsStd true (some metaDelete) [("a", "2")]
        (.found [("a", "1")]) (some ⟨0, 0, 0⟩) "tank" 1 = .ok (some r) ∧
      recDiffPayload r = .snapshot (normalizeDoc optsStd [("a", "1")]) :=
  C7_forced_nodiff_snapshot optsStd metaDelete [("a", "2")]
    (.found [("a", "1")]) (some ⟨0, 0, 0⟩) "tank" 1 [("a", "1")] "delete"
    rfl rfl (by decide) (by decide)

/-! Claim C8: metadata fields on the persisted record. -/

/-- C8 counterexample: the claim says the persisted `account` field is
copied from the pending metadata, but the code prefers the document's own
truthy `account` field (line 263-265): with document account `A` and
metadata account `B`, the record stores `A`. -/
theorem C8_counterexample :
    preSaveCore optsStd false (some metaAccountB) [("account", "A")] .missing
        none "tank" 1 =
      .ok (some [("collectionName", .str "tank"), ("collectionId", .oid 1),
        ("diff", .diffVal (.structural [("account", .add "A")])),
        ("account", .str "A"), ("version", .ver ⟨0, 0, 0⟩)]) ∧
    metaAccountB.account = some "B" := ⟨rfl, rfl⟩

/-- C8 amended: when a record is persisted with pending metadata present,
`event`, `user`, `reason`, `data` and `method` are copied from the
metadata; `account` is the document's own truthy `account` field, falling
back to the metadata's; every field whose value is undefined is omitted
from the record (absent key) rather than stored as null. -/
theorem C8_metadata_fields (opts : Options) (force : Bool) (m : Meta)
    (cur : Doc) (lk : LookupOutcome) (lastV : Option SemVer) (cname : String)
    (cid : Nat) (r : HistoryDoc)
    (h : preSaveCore opts force (some m) cur lk lastV cname cid = .ok (some r)) :
    assocGet r "event" = m.event.map .str ∧
    assocGet r "user" = m.user.map .str ∧
    assocGet r "reason" = m.reason.map .str ∧
    assocGet r "data" = m.data.map .str ∧
    assocGet r "method" = m.method.map .str ∧
    assocGet r "account" = (jsOr (assocGet cur "account") m.account).map .str := by
  have hg : gateB opts (some m) = true := rfl
  cases hlk : resolvePrevious opts lk with
  | error e =>
    rw [preSaveCore, hlk, hg] at h
    simp at h
  | ok prev =>
    rw [preSaveCore_char opts force (some m) cur lk lastV cname cid prev hlk]
      at h
    cases hb : (gateB opts (some m) &&
        ((jdfDiff (normalizeDoc opts prev) (normalizeDoc opts cur)).isSome ||
          opts.noDiffSave || saveWithoutDiffFlag opts (some m))) with
    | false =>
      rw [hb] at h
      simp at h
    | true =>
      rw [hb] at h
      simp only [if_true, Except.ok.injEq, Option.some.injEq] at h
      rw [← h]
      exact ⟨buildObj_get_event _ _ _ _ _ _, buildObj_get_user _ _ _ _ _ _,
        buildObj_get_reason _ _ _ _ _ _, buildObj_get_data _ _ _ _ _ _,
        buildObj_get_method _ _ _ _ _ _, buildObj_get_account _ _ _ _ _ _⟩

/-- Witness for C8 amended at a concrete input: a save with fully populated
metadata. -/
theorem C8_metadata_fields_witness :
    assocGet C8WitnessRecord "event" = metaFull.event.map .str ∧
    assocGet C8WitnessRecord "user" = metaFull.user.map .str ∧
    assocGet C8WitnessRecord "reason" = metaFull.reason.map .str ∧
    assocGet C8WitnessRecord "data" = metaFull.data.map .str ∧
    assocGet C8WitnessRecord "method" = metaFull.method.map .str ∧
    assocGet C8WitnessRecord "account" =
      (jsOr (assocGet [("x", "1")] "account") metaFull.account).map .str :=
  C8_metadata_fields optsStd false metaFull [("x", "1")] .missing none
    "tank" 1 C8WitnessRecord rfl

/-! Run-level characterization lemmas. -/

theorem assocGet_append {α : Type} (l₁ l₂ : List (String × α)) (k : String) :
    assocGet (l₁ ++ l₂) k =
      match assocGet l₁ k with
      | some v => some v
      | none => assocGet l₂ k := by
  induction l₁ with
  | nil => simp [assocGet]
  | cons p rest ih =>
    by_cases h : p.1 = k <;> simp [assocGet, h, ih]

theorem resolvePrevious_entity (opts : Options) (st : RunState) :
    resolvePrevious opts
      (match st.entity with
       | some d => .found d
       | none => .missing) = .ok (st.entity.getD []) := by
  cases st.entity <;> rfl

/-- The state after one save, fully characterized. -/
theorem stepSave_eq (opts : Options) (cname : String) (cid : Nat)
    (st : RunState) (inp : SaveInput) :
    stepSave opts cname cid st inp =
      if gateB opts inp.meta &&
          ((jdfDiff (normalizeDoc opts (st.entity.getD []))
              (normalizeDoc opts inp.cur)).isSome || opts.noDiffSave ||
            saveWithoutDiffFlag opts inp.meta)
      then
        { entity := some inp.cur,
          store := st.store ++ [("_id", FieldVal.oid st.tick) ::
            ("timestamp", FieldVal.num st.tick) ::
            buildObj cname cid
              (mkPayload inp.force (saveWithoutDiffFlag opts inp.meta)
                (jdfDiff (normalizeDoc opts (st.entity.getD []))
                  (normalizeDoc opts inp.cur))
                (normalizeDoc opts (st.entity.getD [])))
              inp.meta (assocGet inp.cur "account")
              (nextVersion (lastVersionOf st.store cname cid) (metaBump inp.meta))],
          tick := st.tick + 1 }
      else { entity := some inp.cur, store := st.store, tick := st.tick + 1 } := by
  rw [stepSave, preSaveCore_char opts inp.force inp.meta inp.cur _
    (lastVersionOf st.store cname cid) cname cid (st.entity.getD [])
    (resolvePrevious_entity opts st)]
  cases hb : (gateB opts inp.meta &&
      ((jdfDiff (normalizeDoc opts (st.entity.getD []))
          (normalizeDoc opts inp.cur)).isSome || opts.noDiffSave ||
        saveWithoutDiffFlag opts inp.meta)) <;> simp [hb]

theorem insRec_get (t : Nat) (r : HistoryDoc) (k : String)
    (h1 : ¬ "_id" = k) (h2 : ¬ "timestamp" = k) :
    assocGet (("_id", FieldVal.oid t) :: ("timestamp", FieldVal.num t) :: r) k =
      assocGet r k := by
  simp [assocGet, h1, h2]

/-- The record inserted by a recorded save passes the entity filter. -/
theorem insRec_matches (t : Nat) (cname : String) (cid : Nat)
    (payload : DiffPayload) (meta : Option Meta) (docAccount : Option String)
    (version : SemVer) :
    (assocGet (("_id", FieldVal.oid t) :: ("timestamp", FieldVal.num t) ::
        buildObj cname cid payload meta docAccount version) "collectionName" =
      some (.str cname)) ∧
    (assocGet (("_id", FieldVal.oid t) :: ("timestamp", FieldVal.num t) ::
        buildObj cname cid payload meta docAccount version) "collectionId" =
      some (.oid cid)) := by
  rw [insRec_get _ _ _ (by decide) (by decide),
    insRec_get _ _ _ (by decide) (by decide)]
  exact ⟨buildObj_get_collectionName _ _ _ _ _ _,
    buildObj_get_collectionId _ _ _ _ _ _⟩

theorem recVersion_insRec (t : Nat) (cname : String) (cid : Nat)
    (payload : DiffPayload) (meta : Option Meta) (docAccount : Option String)
    (version : SemVer) :
    recVersion (("_id", FieldVal.oid t) :: ("timestamp", FieldVal.num t) ::
      buildObj cname cid payload meta docAccount version) = version := by
  rw [recVersion, insRec_get _ _ _ (by decide) (by decide),
    buildObj_get_version]

theorem recDiffPayload_insRec (t : Nat) (cname : String) (cid : Nat)
    (payload : DiffPayload) (meta : Option Meta) (docAccount : Option String)
    (version : SemVer) :
    recDiffPayload (("_id", FieldVal.oid t) :: ("timestamp", FieldVal.num t) ::
      buildObj cname cid payload meta docAccount version) = payload := by
  rw [recDiffPayload, insRec_get _ _ _ (by decide) (by decide),
    buildObj_get_diff]

/-- Appending a matching record extends the entity's record list. -/
theorem matchingRecords_append_ins (store : List HistoryDoc) (cname : String)
    (cid : Nat) (t : Nat) (payload : DiffPayload) (meta : Option Meta)
    (docAccount : Option String) (version : SemVer) :
    matchingRecords (store ++ [("_id", FieldVal.oid t) ::
        ("timestamp", FieldVal.num t) ::
        buildObj cname cid payload meta docAccount version]) cname cid =
      matchingRecords store cname cid ++
        [("_id", FieldVal.oid t) :: ("timestamp", FieldVal.num t) ::
          buildObj cname cid payload meta docAccount version] := by
  rw [matchingRecords, List.filter_append, matchingRecords]
  congr 1
  simp [List.filter, (insRec_matches t cname cid payload meta docAccount version).1,
    (insRec_matches t cname cid payload meta docAccount version).2]


/-- One save under a default bump class extends the version column by one
major step (or leaves it unchanged when no record is written). -/
theorem versions_inv_step (opts : Options) (cname : String) (cid : Nat)
    (st : RunState) (s : SaveInput) (hmeta : s.meta.bind Meta.type = none)
    (hinv : versionsOf st.store cname cid =
      (List.range (matchingRecords st.store cname cid).length).map
        (fun i => ⟨i, 0, 0⟩)) :
    versionsOf (stepSave opts cname cid st s).store cname cid =
      (List.range
        (matchingRecords (stepSave opts cname cid st s).store cname cid).length).map
        (fun i => ⟨i, 0, 0⟩) := by
  rw [versionsOf] at hinv
  rw [stepSave_eq]
  split
  · dsimp only
    have hnext : nextVersion (lastVersionOf st.store cname cid) (metaBump s.meta) =
        ⟨(matchingRecords st.store cname cid).length, 0, 0⟩ := by
      have hmajor : metaBump s.meta = Bump.major := by simp [metaBump, hmeta]
      rw [hmajor]
      rcases hk : (matchingRecords st.store cname cid).length with _ | j
      · have hmat : matchingRecords st.store cname cid = [] :=
          List.length_eq_zero.1 hk
        rw [lastVersionOf, hmat]
        rfl
      · have hgl : (matchingRecords st.store cname cid).getLast?.map recVersion =
            some ⟨j, 0, 0⟩ := by
          rw [← List.getLast?_map, hinv, hk, List.range_succ]
          simp
        rw [lastVersionOf, hgl]
        rfl
    rw [versionsOf, matchingRecords_append_ins, List.map_append,
      List.length_append]
    simp only [List.map_cons, List.map_nil, List.length_singleton]
    rw [recVersion_insRec, hinv, hnext]
    simp [List.range_succ]
  · dsimp only
    rw [versionsOf, hinv]

/-- The version-sequence invariant holds along any run whose saves all use
the default bump class. -/
theorem runSaves_versions_inv (opts : Options) (cname : String) (cid : Nat)
    (saves : List SaveInput) (hdef : ∀ s ∈ saves, s.meta.bind Meta.type = none)
    (st : RunState) (ghosts : List Doc)
    (hinv : versionsOf st.store cname cid =
      (List.range (matchingRecords st.store cname cid).length).map
        (fun i => ⟨i, 0, 0⟩)) :
    versionsOf (runSaves opts cname cid st ghosts saves).1.store cname cid =
      (List.range
        (matchingRecords (runSaves opts cname cid st ghosts saves).1.store
          cname cid).length).map (fun i => ⟨i, 0, 0⟩) := by
  induction saves generalizing st ghosts with
  | nil => exact hinv
  | cons s rest ih =>
    rw [runSaves]
    exact ih (fun x hx => hdef x (List.mem_cons_of_mem s hx)) _ _
      (versions_inv_step opts cname cid st s (hdef s (List.mem_cons_self s rest))
        hinv)

/-! Claim C2: version allocation. -/

/-- C2: with no prior record the version is `0.0.0`; with a prior record
the version is the prior version bumped per standard semver semantics by
the metadata's bump class, defaulting to major when absent; hence any run
whose saves all carry the default bump class produces the version sequence
`0.0.0, 1.0.0, 2.0.0, …` for the entity. -/
theorem C2_version_allocation :
    (∀ b, nextVersion none b = ⟨0, 0, 0⟩) ∧
    (∀ v : SemVer,
      nextVersion (some v) .major = ⟨v.major + 1, 0, 0⟩ ∧
      nextVersion (some v) .minor = ⟨v.major, v.minor + 1, 0⟩ ∧
      nextVersion (some v) .patch = ⟨v.major, v.minor, v.patch + 1⟩) ∧
    metaBump none = .major ∧
    (∀ m : Meta, m.type = none → metaBump (some m) = .major) ∧
    (∀ (opts : Options) (cname : String) (cid : Nat) (saves : List SaveInput),
      (∀ s ∈ saves, s.meta.bind Meta.type = none) →
      versionsOf (runSaves opts cname cid initState [] saves).1.store cname cid =
        (List.range
          (matchingRecords (runSaves opts cname cid initState [] saves).1.store
            cname cid).length).map (fun i => ⟨i, 0, 0⟩)) := by
  refine ⟨fun b => rfl, fun v => ⟨rfl, rfl, rfl⟩, rfl, fun m hm => ?_, ?_⟩
  · simp [metaBump, hm]
  · intro opts cname cid saves hdef
    exact runSaves_versions_inv opts cname cid saves hdef initState [] rfl

/-- Witness for C2 at a concrete input: two default-bump saves of the test
tank produce versions `0.0.0` then `1.0.0`. -/
theorem C2_version_allocation_witness :
    metaBump (some metaEmpty) = .major ∧
    versionsOf twoSaveRun.1.store "tank" 1 = [⟨0, 0, 0⟩, ⟨1, 0, 0⟩] :=
  ⟨C2_version_allocation.2.2.2.1 metaEmpty rfl,
   (C2_version_allocation.2.2.2.2 optsStd "tank" 1
      [⟨none, tankSmall, false⟩, ⟨none, tankLarge, false⟩]
      (by intro s hs; simp at hs; rcases hs with rfl | rfl <;> rfl)).trans
    (by rfl)⟩

/-! getVersion lemmas. -/

theorem findTarget_some_acc (histories : List HistoryDoc) (v : SemVer)
    (acc : HistoryDoc) :
    ∃ h, List.foldl
      (fun acc item => if recVersion item = v then some item else acc)
      (some acc) histories = some h := by
  induction histories generalizing acc with
  | nil => exact ⟨acc, rfl⟩
  | cons x rest ih =>
    simp only [List.foldl_cons]
    by_cases hx : recVersion x = v
    · rw [if_pos hx]
      exact ih x
    · rw [if_neg hx]
      exact ih acc

theorem findTarget_isSome (histories : List HistoryDoc) (v : SemVer)
    (h : HistoryDoc) (hm : h ∈ histories) (hv : recVersion h = v) :
    ∃ h2, findTarget histories v = some h2 := by
  rw [findTarget]
  induction histories with
  | nil => cases hm
  | cons x rest ih =>
    simp only [List.foldl_cons]
    rcases List.mem_cons.1 hm with rfl | hm2
    · rw [if_pos hv]
      exact findTarget_some_acc rest v h
    · by_cases hx : recVersion x = v
      · rw [if_pos hx]
        exact findTarget_some_acc rest v x
      · rw [if_neg hx]
        exact ih hm2

theorem patchPayload_isSome (d : Doc) (p : DiffPayload)
    (hp : isReplayable p = true) : ∃ d2, patchPayload d p = some d2 := by
  cases p with
  | structural df => exact ⟨applyDiff d df, rfl⟩
  | emptyDelta => exact ⟨d, rfl⟩
  | snapshot s =>
    rw [isReplayable] at hp
    exact ⟨d, by rw [patchPayload, hp, if_pos rfl]⟩

theorem replayUpTo_isSome (histories : List HistoryDoc) (v : SemVer)
    (hgood : ∀ h ∈ histories, isReplayable (recDiffPayload h) = true) :
    ∃ d, replayUpTo histories v = some d := by
  rw [replayUpTo]
  suffices hgen : ∀ d : Doc, ∃ d2, List.foldl
      (fun acc item =>
        acc.bind (fun cv =>
          if semverLt (recVersion item) v || recVersion item = v then
            patchPayload cv (recDiffPayload item)
          else some cv))
      (some d) histories = some d2 from hgen []
  induction histories with
  | nil => exact fun d => ⟨d, rfl⟩
  | cons x rest ih =>
    intro d
    simp only [List.foldl_cons, Option.some_bind]
    have hx := hgood x (List.mem_cons_self x rest)
    have hrest : ∀ h ∈ rest, isReplayable (recDiffPayload h) = true :=
      fun h hm => hgood h (List.mem_cons_of_mem x hm)
    by_cases hc : (semverLt (recVersion x) v || recVersion x = v) = true
    · rw [if_pos hc]
      obtain ⟨d2, hd2⟩ := patchPayload_isSome d (recDiffPayload x) hx
      rw [hd2]
      exact ih hrest d2
    · rw [if_neg hc]
      exact ih hrest d

/-! Claim C4: when getVersion fails. -/

/-- C4 counterexample: the claim says that with at least one record
`getVersion` never fails, clamping making "target not found" impossible;
but clamping only fixes out-of-range requests: with records at `0.0.0` and
`1.0.0`, requesting the in-range version `0.1.0` leaves the target
unmatched and the call fails (`delete result.diff` on `undefined`). -/
theorem C4_counterexample :
    (matchingRecords twoSaveRun.1.store "tank" 1).length = 2 ∧
    getVersionM twoSaveRun.1.store "tank" 1 ⟨0, 1, 0⟩ =
      .error "version not found" := ⟨rfl, rfl⟩

/-- C4 amended: `getVersion` fails with the "no history" error exactly when
the entity has zero records, in both directions: with at least one record
any failure is a different error.  With at least one record, provided
every stored payload is a valid delta for the patch engine — which
excludes the full-snapshot diff written by a forced no-diff deletion
commit, whose patch throws during the replay fold — it succeeds whenever
some record carries the clamped target version (in particular for every
out-of-range request), but it can still fail on an in-range version no
record carries. -/
theorem C4_getVersion_failure (store : List HistoryDoc) (cname : String)
    (cid : Nat) (v : SemVer) :
    (matchingRecords store cname cid = [] ↔
      getVersionM store cname cid v = .error "no history") ∧
    (∀ h ∈ matchingRecords store cname cid,
      (∀ h2 ∈ matchingRecords store cname cid,
        isReplayable (recDiffPayload h2) = true) →
      recVersion h = clampTarget (matchingRecords store cname cid) v →
      ∃ res, getVersionM store cname cid v = .ok res) := by
  constructor
  · constructor
    · intro hmat
      rw [getVersionM]
      simp [hmat]
    · intro herr
      by_contra hnonempty
      have hie : (matchingRecords store cname cid).isEmpty = false := by
        cases hM : matchingRecords store cname cid
        · exact absurd hM hnonempty
        · rfl
      rw [getVersionM] at herr
      simp only [hie, Bool.false_eq_true, if_false] at herr
      split at herr
      · injection herr with hmsg
        exact absurd hmsg (by decide)
      · split at herr
        · injection herr with hmsg
          exact absurd hmsg (by decide)
        · exact Except.noConfusion herr
  · intro h hm hgood hv
    rw [getVersionM]
    have hne : (matchingRecords store cname cid).isEmpty = false := by
      cases hM : matchingRecords store cname cid
      · rw [hM] at hm; cases hm
      · rfl
    simp only [hne, Bool.false_eq_true, if_false]
    obtain ⟨d, hd⟩ := replayUpTo_isSome (matchingRecords store cname cid)
      (clampTarget (matchingRecords store cname cid) v) hgood
    rw [hd]
    obtain ⟨h2, hh2⟩ := findTarget_isSome (matchingRecords store cname cid)
      (clampTarget (matchingRecords store cname cid) v) h hm hv
    rw [hh2]
    exact ⟨_, rfl⟩

/-- Witness for C4 amended at concrete inputs: the empty store fails with
"no history"; the two-record tank store succeeds at `0.0.0`. -/
theorem C4_getVersion_failure_witness :
    getVersionM [] "t" 1 ⟨0, 0, 0⟩ = .error "no history" ∧
    matchingRecords ([] : List HistoryDoc) "t" 1 = [] ∧
    ∃ res, getVersionM twoSaveRun.1.store "tank" 1 ⟨0, 0, 0⟩ = .ok res :=
  ⟨(C4_getVersion_failure [] "t" 1 ⟨0, 0, 0⟩).1.1 rfl,
   (C4_getVersion_failure [] "t" 1 ⟨0, 0, 0⟩).1.2 rfl,
   (C4_getVersion_failure twoSaveRun.1.store "tank" 1 ⟨0, 0, 0⟩).2
     [("_id", .oid 0), ("timestamp", .num 0), ("collectionName", .str "tank"),
      ("collectionId", .oid 1),
      ("diff", .diffVal (.structural [("_id", .add "x"), ("size", .add "small")])),
      ("version", .ver ⟨0, 0, 0⟩)]
     (by decide) (by decide) (by decide)⟩

/-! Claim C5: clamping equalities. -/

theorem clampTarget_high (histories : List HistoryDoc) (v : SemVer)
    (hlast : HistoryDoc) (hl : histories.getLast? = some hlast)
    (h : semverLt (recVersion hlast) v = true) :
    clampTarget histories v = clampTarget histories (recVersion hlast) := by
  rw [clampTarget, clampTarget, hl]
  simp only [Option.getD_some, h, if_true, semverLt_irrefl, Bool.false_eq_true,
    if_false, ite_self]

theorem clampTarget_low (histories : List HistoryDoc) (v : SemVer)
    (hfirst hlast : HistoryDoc) (hh : histories.head? = some hfirst)
    (hl : histories.getLast? = some hlast)
    (h : semverLt v (recVersion hfirst) = true) :
    clampTarget histories v = clampTarget histories (recVersion hfirst) := by
  rw [clampTarget, clampTarget, hh, hl]
  simp only [Option.getD_some]
  by_cases h1 : semverLt (recVersion hlast) v = true
  · have hlf : semverLt (recVersion hlast) (recVersion hfirst) = true :=
      semverLt_trans h1 h
    simp [h1, hlf]
  · by_cases h2 : semverLt (recVersion hlast) (recVersion hfirst) = true
    · simp [h1, h, h2]
    · simp [h1, h, h2, semverLt_irrefl]

/-- C5: for an entity with at least one record, `getVersion` at a version
strictly above the latest recorded version returns exactly the result of
`getVersion(latest)`, and at a version strictly below the earliest it
returns exactly the result of `getVersion(earliest)`. -/
theorem C5_clamping (store : List HistoryDoc) (cname : String) (cid : Nat)
    (v : SemVer) (hfirst hlast : HistoryDoc)
    (hh : (matchingRecords store cname cid).head? = some hfirst)
    (hl : (matchingRecords store cname cid).getLast? = some hlast) :
    (semverLt (recVersion hlast) v = true →
      getVersionM store cname cid v =
        getVersionM store cname cid (recVersion hlast)) ∧
    (semverLt v (recVersion hfirst) = true →
      getVersionM store cname cid v =
        getVersionM store cname cid (recVersion hfirst)) := by
  have hne : (matchingRecords store cname cid).isEmpty = false := by
    cases hM : matchingRecords store cname cid
    · rw [hM] at hh; cases hh
    · rfl
  constructor
  · intro hgt
    rw [getVersionM, getVersionM]
    simp only [hne, Bool.false_eq_true, if_false]
    rw [clampTarget_high _ _ _ hl hgt]
  · intro hlt
    rw [getVersionM, getVersionM]
    simp only [hne, Bool.false_eq_true, if_false]
    rw [clampTarget_low _ _ _ _ hh hl hlt]

/-- Witness for C5 at concrete inputs: on a two-record history with
versions `1.0.0` and `2.0.0`, requesting `9.0.0` equals requesting the
latest and requesting `0.5.0` equals requesting the earliest. -/
theorem C5_clamping_witness :
    getVersionM c5Store "t" 1 ⟨9, 0, 0⟩ = getVersionM c5Store "t" 1 ⟨2, 0, 0⟩ ∧
    getVersionM c5Store "t" 1 ⟨0, 5, 0⟩ = getVersionM c5Store "t" 1 ⟨1, 0, 0⟩ :=
  ⟨(C5_clamping c5Store "t" 1 ⟨9, 0, 0⟩ (c5Store.get ⟨0, by decide⟩)
      (c5Store.get ⟨1, by decide⟩) (by decide) (by decide)).1 (by decide),
   (C5_clamping c5Store "t" 1 ⟨0, 5, 0⟩ (c5Store.get ⟨0, by decide⟩)
      (c5Store.get ⟨1, by decide⟩) (by decide) (by decide)).2 (by decide)⟩

/-! Claim C9: compareVersions. -/

/-- C9: a successful `compareVersions(a, b)` replays the two versions
independently and returns both snapshots together with the structural diff
between them; the two versions are accepted in either order (the swapped
call succeeds with the snapshots exchanged); and patching snapshot(a) with
the returned diff reproduces snapshot(b) field for field. -/
theorem C9_compareVersions (store : List HistoryDoc) (cname : String)
    (cid : Nat) (va vb : SemVer) (c : CompareResult)
    (h : compareVersionsM store cname cid va vb = .ok c) :
    (∃ l, getVersionM store cname cid va = .ok l ∧ c.left = l.object) ∧
    (∃ r, getVersionM store cname cid vb = .ok r ∧ c.right = r.object) ∧
    c.diff = jdfDiff c.left c.right ∧
    DocEquiv (patchOpt c.left c.diff) c.right ∧
    (∃ c2, compareVersionsM store cname cid vb va = .ok c2 ∧
      c2.left = c.right ∧ c2.right = c.left) := by
  rw [compareVersionsM] at h
  cases hva : getVersionM store cname cid va with
  | error e => rw [hva] at h; cases h
  | ok l =>
    rw [hva] at h
    cases hvb : getVersionM store cname cid vb with
    | error e => rw [hvb] at h; cases h
    | ok r =>
      rw [hvb] at h
      cases h
      refine ⟨⟨l, rfl, rfl⟩, ⟨r, rfl, rfl⟩, rfl,
        jdfDiff_roundtrip l.object r.object, ?_⟩
      rw [compareVersionsM, hvb, hva]
      exact ⟨_, rfl, rfl, rfl⟩

/-- Witness for C9 at a concrete input: comparing versions `0.0.0` and
`1.0.0` of the test tank. -/
theorem C9_compareVersions_witness :
    (∃ l, getVersionM twoSaveRun.1.store "tank" 1 ⟨0, 0, 0⟩ = .ok l ∧
      c9Result.left = l.object) ∧
    (∃ r, getVersionM twoSaveRun.1.store "tank" 1 ⟨1, 0, 0⟩ = .ok r ∧
      c9Result.right = r.object) ∧
    c9Result.diff = jdfDiff c9Result.left c9Result.right ∧
    DocEquiv (patchOpt c9Result.left c9Result.diff) c9Result.right ∧
    (∃ c2, compareVersionsM twoSaveRun.1.store "tank" 1 ⟨1, 0, 0⟩ ⟨0, 0, 0⟩ =
        .ok c2 ∧ c2.left = c9Result.right ∧ c2.right = c9Result.left) :=
  C9_compareVersions twoSaveRun.1.store "tank" 1 ⟨0, 0, 0⟩ ⟨1, 0, 0⟩ c9Result
    rfl

/-! Claim C10: forced projection exclusions. -/

theorem mergeSelect_forces (sel : List (String × Nat)) (k : String)
    (hk : k = "_id" ∨ k = "collectionId" ∨ k = "collectionName") :
    assocGet (mergeSelect sel) k = some 0 := by
  rw [mergeSelect, assocGet_append]
  have hnone : assocGet (sel.filter (fun p =>
      p.1 ≠ "_id" && p.1 ≠ "collectionId" && p.1 ≠ "collectionName")) k =
      none := by
    rw [assocGet_eq_none_iff]
    intro hmem
    obtain ⟨p, hp, hfst⟩ := List.mem_map.1 hmem
    have hf := (List.mem_filter.1 hp).2
    rcases hk with rfl | rfl | rfl <;> simp [hfst] at hf
  rw [hnone]
  rcases hk with rfl | rfl | rfl <;> rfl

theorem applySelect_drops (sel : List (String × Nat)) (r : HistoryDoc)
    (k : String) (hk : assocGet sel k = some 0) :
    assocGet (applySelect sel r) k = none := by
  rw [assocGet_eq_none_iff]
  intro hmem
  obtain ⟨p, hp, hfst⟩ := List.mem_map.1 hmem
  have hf := (List.mem_filter.1 hp).2
  simp [hfst, hk] at hf

/-- Every record of a run-produced store carries `_id`, `collectionId` and
`collectionName`. -/
theorem runSaves_store_shape (opts : Options) (cname : String) (cid : Nat)
    (saves : List SaveInput) (st : RunState) (ghosts : List Doc)
    (hwf : ∀ r ∈ st.store, (∃ n, assocGet r "_id" = some (.oid n)) ∧
      assocGet r "collectionId" = some (.oid cid) ∧
      assocGet r "collectionName" = some (.str cname)) :
    ∀ r ∈ (runSaves opts cname cid st ghosts saves).1.store,
      (∃ n, assocGet r "_id" = some (.oid n)) ∧
      assocGet r "collectionId" = some (.oid cid) ∧
      assocGet r "collectionName" = some (.str cname) := by
  induction saves generalizing st ghosts with
  | nil => exact hwf
  | cons s rest ih =>
    rw [runSaves]
    apply ih
    rw [stepSave_eq]
    split
    · dsimp only
      intro r hr
      rcases List.mem_append.1 hr with hr | hr
      · exact hwf r hr
      · rcases List.mem_singleton.1 hr with rfl
        exact ⟨⟨st.tick, rfl⟩,
          (insRec_matches st.tick cname cid _ s.meta _ _).2,
          (insRec_matches st.tick cname cid _ s.meta _ _).1⟩
    · dsimp only
      exact hwf

/-- C10: whenever a caller supplies a `select` projection to `getDiffs` or
`getDiff`, the fields `_id`, `collectionId` and `collectionName` are
forcibly merged into it as exclusions, so the returned records never
contain those three fields; with no projection the records are returned
whole, and for any run-produced store they do contain all three. -/
theorem C10_select_exclusions :
    (∀ (store : List HistoryDoc) (cname : String) (cid : Nat)
        (sel : List (String × Nat)) (r : HistoryDoc),
      r ∈ getDiffsM store cname cid (some sel) →
      assocGet r "_id" = none ∧ assocGet r "collectionId" = none ∧
        assocGet r "collectionName" = none) ∧
    (∀ (store : List HistoryDoc) (cname : String) (cid : Nat) (v : SemVer)
        (sel : List (String × Nat)) (r : HistoryDoc),
      getDiffM store cname cid v (some sel) = some r →
      assocGet r "_id" = none ∧ assocGet r "collectionId" = none ∧
        assocGet r "collectionName" = none) ∧
    (∀ (store : List HistoryDoc) (cname : String) (cid : Nat),
      getDiffsM store cname cid none = (matchingRecords store cname cid).reverse) ∧
    (∀ (opts : Options) (saves : List SaveInput) (cname : String) (cid : Nat)
        (r : HistoryDoc),
      r ∈ getDiffsM (runSaves opts cname cid initState [] saves).1.store
        cname cid none →
      (∃ n, assocGet r "_id" = some (.oid n)) ∧
      assocGet r "collectionId" = some (.oid cid) ∧
      assocGet r "collectionName" = some (.str cname)) := by
  refine ⟨?_, ?_, ?_, ?_⟩
  · intro store cname cid sel r hr
    rw [getDiffsM] at hr
    obtain ⟨r2, _, hfn⟩ := List.mem_map.1 hr
    rw [← hfn]
    exact ⟨applySelect_drops _ _ _ (mergeSelect_forces sel _ (Or.inl rfl)),
      applySelect_drops _ _ _ (mergeSelect_forces sel _ (Or.inr (Or.inl rfl))),
      applySelect_drops _ _ _ (mergeSelect_forces sel _ (Or.inr (Or.inr rfl)))⟩
  · intro store cname cid v sel r hr
    rw [getDiffM] at hr
    obtain ⟨r2, _, hfn⟩ := Option.map_eq_some'.1 hr
    rw [← hfn]
    exact ⟨applySelect_drops _ _ _ (mergeSelect_forces sel _ (Or.inl rfl)),
      applySelect_drops _ _ _ (mergeSelect_forces sel _ (Or.inr (Or.inl rfl))),
      applySelect_drops _ _ _ (mergeSelect_forces sel _ (Or.inr (Or.inr rfl)))⟩
  · intro store cname cid
    simp [getDiffsM]
  · intro opts saves cname cid r hr
    rw [getDiffsM] at hr
    obtain ⟨r2, hr2, hfn⟩ := List.mem_map.1 hr
    rw [← hfn]
    exact runSaves_store_shape opts cname cid saves initState []
      (fun x hx => absurd hx (List.not_mem_nil x)) r2
      (List.mem_of_mem_filter (List.mem_reverse.1 hr2))

/-- Witness for C10 at concrete inputs: a `{version: 1}` projection strips
the three fields; without a projection the returned tank records carry
them. -/
theorem C10_select_exclusions_witness :
    (assocGet [("version", FieldVal.ver ⟨1, 0, 0⟩)] "_id" = none ∧
      assocGet [("version", FieldVal.ver ⟨1, 0, 0⟩)] "collectionId" = none ∧
      assocGet [("version", FieldVal.ver ⟨1, 0, 0⟩)] "collectionName" = none) ∧
    ((∃ n, assocGet C10WitnessRecord "_id" = some (.oid n)) ∧
      assocGet C10WitnessRecord "collectionId" = some (.oid 1) ∧
      assocGet C10WitnessRecord "collectionName" = some (.str "tank")) :=
  ⟨C10_select_exclusions.1 twoSaveRun.1.store "tank" 1 [("version", 1)]
      [("version", FieldVal.ver ⟨1, 0, 0⟩)] (by decide),
   C10_select_exclusions.2.2.2 optsStd
      [⟨none, tankSmall, false⟩, ⟨none, tankLarge, false⟩] "tank" 1
      C10WitnessRecord (by decide)⟩

/-! Claim C1: replay reproduces recorded states. -/

theorem forall2_concat {α β : Type} (R : α → β → Prop) {l1 : List α}
    {l2 : List β} (h : List.Forall₂ R l1 l2) (a : α) (b : β) (hab : R a b) :
    List.Forall₂ R (l1 ++ [a]) (l2 ++ [b]) := by
  induction h with
  | nil => exact List.Forall₂.cons hab List.Forall₂.nil
  | cons hxy _ ih => exact List.Forall₂.cons hxy ih

theorem mkPayload_not_forced (swd : Bool) (sdiff : Option Diff) (p : Doc) :
    mkPayload false swd sdiff p =
      match sdiff with
      | some d => .structural d
      | none => .emptyDelta := by
  rw [mkPayload.eq_def]
  simp

theorem replayAll_concat (hs : List HistoryDoc) (x : HistoryDoc) (cv : Doc)
    (rs : List VersionResult) (h : replayAll hs = some (cv, rs)) :
    replayAll (hs ++ [x]) =
      (patchPayload cv (recDiffPayload x)).map (fun cv2 =>
        (cv2, rs ++ [⟨recErase x "diff", cv2⟩])) := by
  rw [replayAll, List.foldl_append, ← replayAll, h]
  simp only [List.foldl_cons, List.foldl_nil, Option.some_bind]

/-- Appending a record carrying a structural diff of the current normalized
state extends the replay invariant. -/
theorem replayInv_append_structural (cname : String) (cid : Nat)
    (store : List HistoryDoc) (t : Nat) (meta : Option Meta)
    (acct : Option String) (ver : SemVer) (cv : Doc) (rs : List VersionResult)
    (ghosts : List Doc) (prevN curN : Doc) (d : Diff)
    (hreplay : replayAll (matchingRecords store cname cid) = some (cv, rs))
    (hall : List.Forall₂ (fun r g => DocEquiv r.object g) rs ghosts)
    (hcv : DocEquiv cv prevN) (hj : jdfDiff prevN curN = some d) :
    ∃ cv2 rs2,
      replayAll (matchingRecords (store ++ [("_id", FieldVal.oid t) ::
        ("timestamp", FieldVal.num t) ::
        buildObj cname cid (.structural d) meta acct ver]) cname cid) =
        some (cv2, rs2) ∧
      List.Forall₂ (fun r g => DocEquiv r.object g) rs2 (ghosts ++ [curN]) ∧
      DocEquiv cv2 curN := by
  have hEq : DocEquiv (applyDiff cv d) curN := by
    have h1 : DocEquiv (applyDiff cv d) (applyDiff prevN d) :=
      applyDiff_congr d (jdfDiff_keys_nodup hj) hcv
    have h2 := jdfDiff_roundtrip prevN curN
    rw [hj] at h2
    exact h1.trans h2
  rw [matchingRecords_append_ins, replayAll_concat _ _ cv rs hreplay,
    recDiffPayload_insRec]
  exact ⟨_, _, rfl, forall2_concat _ hall _ _ hEq, hEq⟩

/-- Appending a record carrying the empty delta (written when the diff was
empty but `noDiffSave` or `saveWithoutDiff` forces a commit) extends the
replay invariant. -/
theorem replayInv_append_empty (cname : String) (cid : Nat)
    (store : List HistoryDoc) (t : Nat) (meta : Option Meta)
    (acct : Option String) (ver : SemVer) (cv : Doc) (rs : List VersionResult)
    (ghosts : List Doc) (prevN curN : Doc)
    (hreplay : replayAll (matchingRecords store cname cid) = some (cv, rs))
    (hall : List.Forall₂ (fun r g => DocEquiv r.object g) rs ghosts)
    (hcv : DocEquiv cv prevN) (hj : jdfDiff prevN curN = none) :
    ∃ cv2 rs2,
      replayAll (matchingRecords (store ++ [("_id", FieldVal.oid t) ::
        ("timestamp", FieldVal.num t) ::
        buildObj cname cid .emptyDelta meta acct ver]) cname cid) =
        some (cv2, rs2) ∧
      List.Forall₂ (fun r g => DocEquiv r.object g) rs2 (ghosts ++ [curN]) ∧
      DocEquiv cv2 curN := by
  have hEq : DocEquiv cv curN := hcv.trans (jdfDiff_none_equiv hj)
  rw [matchingRecords_append_ins, replayAll_concat _ _ cv rs hreplay,
    recDiffPayload_insRec]
  exact ⟨_, _, rfl, forall2_concat _ hall _ _ hEq, hEq⟩

/-- One non-forced save under `noEventSave = true` preserves the replay
invariant (ghosts updated exactly as `runSaves` does). -/
theorem replayInv_step (opts : Options) (cname : String) (cid : Nat)
    (st : RunState) (ghosts : List Doc) (s : SaveInput)
    (hne : opts.noEventSave = true) (hforce : s.force = false)
    (hinv : ReplayInv opts cname cid st ghosts) :
    ReplayInv opts cname cid (stepSave opts cname cid st s)
      (if (stepSave opts cname cid st s).store.length = st.store.length then
        ghosts
       else ghosts ++ [normalizeDoc opts s.cur]) := by
  obtain ⟨cv, rs, hreplay, hall, hcv⟩ := hinv
  by_cases hb : (gateB opts s.meta &&
      ((jdfDiff (normalizeDoc opts (st.entity.getD []))
          (normalizeDoc opts s.cur)).isSome || opts.noDiffSave ||
        saveWithoutDiffFlag opts s.meta)) = true
  · rw [stepSave_eq, if_pos hb]
    dsimp only
    rw [if_neg (by simp)]
    rw [ReplayInv]
    dsimp only
    simp only [Option.getD_some]
    rw [hforce, mkPayload_not_forced]
    cases hj : jdfDiff (normalizeDoc opts (st.entity.getD []))
        (normalizeDoc opts s.cur) with
    | some d =>
      exact replayInv_append_structural cname cid st.store st.tick s.meta
        (assocGet s.cur "account") _ cv rs ghosts _ _ d hreplay hall hcv hj
    | none =>
      exact replayInv_append_empty cname cid st.store st.tick s.meta
        (assocGet s.cur "account") _ cv rs ghosts _ _ hreplay hall hcv hj
  · rw [stepSave_eq, if_neg hb]
    dsimp only
    rw [if_pos rfl]
    have hgate : gateB opts s.meta = true := by simp [gateB, hne]
    rw [hgate, Bool.true_and] at hb
    have hor : ((jdfDiff (normalizeDoc opts (st.entity.getD []))
        (normalizeDoc opts s.cur)).isSome || opts.noDiffSave ||
        saveWithoutDiffFlag opts s.meta) = false := by
      cases hx : ((jdfDiff (normalizeDoc opts (st.entity.getD []))
          (normalizeDoc opts s.cur)).isSome || opts.noDiffSave ||
          saveWithoutDiffFlag opts s.meta) with
      | true => exact absurd hx hb
      | false => rfl
    simp only [Bool.or_eq_false_iff] at hor
    have hjn : jdfDiff (normalizeDoc opts (st.entity.getD []))
        (normalizeDoc opts s.cur) = none := by
      cases hx : jdfDiff (normalizeDoc opts (st.entity.getD []))
          (normalizeDoc opts s.cur) with
      | none => rfl
      | some d =>
        rw [hx] at hor
        simp at hor
    rw [ReplayInv]
    dsimp only
    simp only [Option.getD_some]
    exact ⟨cv, rs, hreplay, hall, hcv.trans (jdfDiff_none_equiv hjn)⟩

/-- The replay invariant holds at the end of any run of non-forced saves
under `noEventSave = true`. -/
theorem runSaves_replayInv (opts : Options) (cname : String) (cid : Nat)
    (saves : List SaveInput) (hne : opts.noEventSave = true)
    (hforce : ∀ s ∈ saves, s.force = false) (st : RunState) (ghosts : List Doc)
    (hinv : ReplayInv opts cname cid st ghosts) :
    ReplayInv opts cname cid (runSaves opts cname cid st ghosts saves).1
      (runSaves opts cname cid st ghosts saves).2 := by
  induction saves generalizing st ghosts with
  | nil => exact hinv
  | cons s rest ih =>
    rw [runSaves]
    exact ih (fun x hx => hforce x (List.mem_cons_of_mem s hx)) _ _
      (replayInv_step opts cname cid st ghosts s hne
        (hforce s (List.mem_cons_self s rest)) hinv)

/-- C1 amended: for an entity every mutation of which goes through the
recording pipeline — `noEventSave` set (its default), no forced (deletion)
commits — replaying the stored diffs in ascending order from the empty
object, as `getVersions` does, reproduces field for field the normalized
materialized entity state captured at each recorded version. -/
theorem C1_replay_reproduces_states (opts : Options) (cname : String)
    (cid : Nat) (saves : List SaveInput) (hne : opts.noEventSave = true)
    (hforce : ∀ s ∈ saves, s.force = false) :
    ∃ rs, getVersionsM (runSaves opts cname cid initState [] saves).1.store
        cname cid = some rs ∧
      List.Forall₂ (fun (r : VersionResult) (g : Doc) => DocEquiv r.object g)
        rs (runSaves opts cname cid initState [] saves).2 := by
  have hinv := runSaves_replayInv opts cname cid saves hne hforce initState []
    ⟨[], [], rfl, List.Forall₂.nil, DocEquiv.refl []⟩
  obtain ⟨cv, rs, hreplay, hall, _⟩ := hinv
  refine ⟨rs, ?_, hall⟩
  rw [getVersionsM, hreplay]
  rfl

/-- Witness for C1 amended at a concrete input: the two-save tank run. -/
theorem C1_replay_reproduces_states_witness :
    ∃ rs, getVersionsM twoSaveRun.1.store "tank" 1 = some rs ∧
      List.Forall₂ (fun (r : VersionResult) (g : Doc) => DocEquiv r.object g)
        rs twoSaveRun.2 :=
  C1_replay_reproduces_states optsStd "tank" 1
    [⟨none, tankSmall, false⟩, ⟨none, tankLarge, false⟩] rfl
    (by intro s hs; simp at hs; rcases hs with rfl | rfl <;> rfl)

/-- C1 counterexample: with `noEventSave` off, a metadata-less save mutates
the entity without writing a record, so a later record's diff is computed
against a state replay never sees: in the gap run the second replayed
snapshot still contains the deleted field `b`, while the state recorded at
that version does not. -/
theorem C1_counterexample :
    (getVersionsM gapRun.1.store "tank" 1).map (List.map VersionResult.object) =
      some [[("b", "1"), ("a", "1")], [("a", "2"), ("b", "1")]] ∧
    gapRun.2 = [[("a", "1"), ("b", "1")], [("a", "2")]] ∧
    DocEquiv [("b", "1"), ("a", "1")] [("a", "1"), ("b", "1")] ∧
    ¬ DocEquiv [("a", "2"), ("b", "1")] [("a", "2")] := by
  refine ⟨rfl, rfl, ?_, fun h => absurd (h "b") (by decide)⟩
  intro k
  by_cases h1 : k = "b"
  · rw [h1]; rfl
  · by_cases h2 : k = "a"
    · rw [h2]; rfl
    · have hb : ¬ "b" = k := fun h => h1 h.symm
      have ha : ¬ "a" = k := fun h => h2 h.symm
      simp [assocGet, hb, ha]
